import Mathlib

/-!
Verification development for the oranda site builder
(`src/site/mod.rs` and `src/errors.rs`).

The site orchestrator (`Site`) is shallowly embedded here: paths are lists
of `/`-separated components, the working directory and page writes become
explicit state passing, fallible collaborators (the release-source fetch
and the cheap release-existence check) are passed in as `Except` values.
Collaborator modules that are not part of the orchestrator sources
(`Context` construction, template rendering, markdown pages) are modelled
from the specification and marked as such in their doc comments.
-/

namespace Oranda

/-! ## Path model

A path is a list of `/`-separated components. The component-level
`extension` / `file_stem` functions mirror the Rust `Utf8Path` methods
used in `Site::write`: the extension is the portion of the file name after
the final dot, and is absent when there is no dot or when the only dot is
the leading character of the file name. -/

/-- Splits the characters of a file-name component into (stem, extension),
following the Rust `Path::file_stem` / `Path::extension` semantics. -/
def extSplit (cs : List Char) : List Char × Option (List Char) :=
  let r := cs.reverse
  let eRev := r.takeWhile (fun c => c ≠ '.')
  match r.drop eRev.length with
  | [] => (cs, none)
  | _ :: sRev => if sRev.isEmpty then (cs, none) else (sRev.reverse, some eRev.reverse)

/-- Rust `Utf8Path::extension` of a single file-name component. -/
def extension (s : String) : Option String :=
  ((extSplit s.data).2).map fun cs => ⟨cs⟩

/-- Rust `Utf8Path::file_stem` of a single file-name component. -/
def file_stem (s : String) : String :=
  ⟨(extSplit s.data).1⟩

/-- A rendered output page: relative slash-separated file name
(as its list of components) plus rendered contents. -/
structure Page where
  filename : List String
  contents : String
deriving DecidableEq, Repr

/-- The output path computed for one page by `Site::write`: if the page's
path does not end in the component `index.html` and its file name has
extension `html`, the page is rewritten to `parent/stem/index.html` under
`dist` ("pretty link"); otherwise it is written at its literal path under
`dist`. -/
def writePath (dist : List String) (p : List String) : List String :=
  if !(p.getLast? == some "index.html") && (extension (p.getLast?.getD "") == some "html") then
    dist ++ p.dropLast ++ [file_stem (p.getLast?.getD ""), "index.html"]
  else
    dist ++ p

/-- Model of `Site::write`: every page of the site is written at its
pretty-link-rewritten path under the dist directory. -/
def writtenPaths (dist : List String) (pages : List Page) : List (List String × String) :=
  pages.map fun pg => (writePath dist pg.filename, pg.contents)

/-- C1: for every Site written by `Site::write`, a page whose file name has
extension `html` and is not named `index.html` is written at
`<parent>/<stem>/index.html` under the dist directory; a page named
`index.html` is written at `index.html`; and a page with any other
extension (e.g. `changelog.rss`) is written at its literal filename
unchanged. -/
theorem write_pretty_link_rewrite (dist : List String) (pg : Page) :
    (extension (pg.filename.getLast?.getD "") = some "html" →
      pg.filename.getLast? ≠ some "index.html" →
      writePath dist pg.filename =
        dist ++ pg.filename.dropLast ++
          [file_stem (pg.filename.getLast?.getD ""), "index.html"]) ∧
    (pg.filename = ["index.html"] →
      writePath dist pg.filename = dist ++ ["index.html"]) ∧
    (extension (pg.filename.getLast?.getD "") ≠ some "html" →
      writePath dist pg.filename = dist ++ pg.filename) := by
  refine ⟨fun hext hne => ?_, fun hidx => ?_, fun hext => ?_⟩
  · have h1 : (pg.filename.getLast? == some "index.html") = false := by
      simp [hne]
    have h2 : (extension (pg.filename.getLast?.getD "") == some "html") = true := by
      simp [hext]
    unfold writePath
    rw [h1, h2]
    simp
  · rw [hidx]
    simp [writePath]
  · have h2 : (extension (pg.filename.getLast?.getD "") == some "html") = false := by
      simp [hext]
    unfold writePath
    rw [h2]
    simp

/-- Witness for C1 at the spec's three concrete examples: `funding.html`
goes to `funding/index.html`, `index.html` stays `index.html`, and
`changelog.rss` is written unchanged. -/
theorem write_pretty_link_rewrite_witness :
    writePath ["public"] ["funding.html"] = ["public", "funding", "index.html"] ∧
    writePath ["public"] ["index.html"] = ["public", "index.html"] ∧
    writePath ["public"] ["changelog.rss"] = ["public", "changelog.rss"] := by
  refine ⟨?_, ?_, ?_⟩
  · have h := (write_pretty_link_rewrite ["public"] ⟨["funding.html"], ""⟩).1
      (by decide) (by decide)
    simpa using h
  · have h := (write_pretty_link_rewrite ["public"] ⟨["index.html"], ""⟩).2.1 rfl
    simpa using h
  · have h := (write_pretty_link_rewrite ["public"] ⟨["changelog.rss"], ""⟩).2.2
      (by decide)
    simpa using h

/-! ## Release data model

`Context`, `Release` and their constructors live in collaborator modules
that are not part of the orchestrator sources; they are modelled from the
specification (§3, §4.3) where noted. -/

/-- Which client produced a release, or whether it is the synthetic
placeholder for the current working tree. -/
inductive ReleaseSource where
  | gitHub
  | axodotdev
  | currentWorkingTree
deriving DecidableEq, Repr

/-- Model of `ReleaseSource::is_current_state`: true exactly for the synthetic
current-working-tree placeholder. -/
def ReleaseSource.is_current_state : ReleaseSource → Bool
  | .currentWorkingTree => true
  | _ => false

/-- Parse status of a release's manifest. Modelled from the spec (§3):
Full, Partial(reason) — here `degraded` —, or Unparseable(reason). -/
inductive ParseStatus where
  | full
  | degraded (reason : String)
  | unparseable (reason : String)
deriving DecidableEq, Repr

/-- True when a release's manifest parsed fully or partially. -/
def ParseStatus.parsed : ParseStatus → Bool
  | .unparseable _ => false
  | _ => true

/-- A release's artifact collection, with the late-bound visibility flag
toggled by `make_scripts_viewable`. -/
structure ArtifactSet where
  items : List String
  scripts_viewable : Bool
deriving DecidableEq, Repr

/-- Modelled from the spec: `Artifacts::make_scripts_viewable` marks the
artifacts of a release as directly viewable/inlined; it touches nothing
but the visibility marking. -/
def ArtifactSet.make_scripts_viewable (a : ArtifactSet) : ArtifactSet :=
  { a with scripts_viewable := true }

/-- One release of the aggregated history. -/
structure Release where
  version_tag : String
  source : ReleaseSource
  status : ParseStatus
  artifacts : ArtifactSet
deriving DecidableEq, Repr

/-- The aggregated, ordered (newest first) release history of one project
build. -/
structure Context where
  releases : List Release
deriving DecidableEq, Repr

/-- Index of the first list element satisfying `p`. -/
def findFirst (p : Release → Bool) : List Release → Option Nat
  | [] => none
  | r :: rs => if p r then some 0 else (findFirst p rs).map (· + 1)

/-- Modelled from the spec (§3, glossary): the latest release is the first
release in the sequence whose manifest parsed successfully (fully or
partially); `Context::latest_mut` yields a reference to it. Here we
compute its index. -/
def Context.latestIdx (c : Context) : Option Nat :=
  findFirst (fun r => r.status.parsed) c.releases

/-- Replaces the element at index `i` by `f` applied to it; elsewhere the
list is unchanged. Used to express the in-place mutation obtained through
`Context::latest_mut`. -/
def modifyIdx (l : List Release) (i : Nat) (f : Release → Release) : List Release :=
  match l, i with
  | [], _ => []
  | a :: as, 0 => f a :: as
  | a :: as, n + 1 => a :: modifyIdx as n f

/-- Modelled from the spec (§4.3 step 5, §8 property 1):
`Context::new_current` synthesizes a single release representing the
project's present unreleased state: source `CurrentWorkingTree`, no
artifacts. -/
def Context.new_current : Context :=
  { releases := [{ version_tag := "current"
                 , source := .currentWorkingTree
                 , status := .full
                 , artifacts := { items := [], scripts_viewable := false } }] }

/-! ## Configuration model

Only the configuration fields read by `Site` are modelled. The
`artifacts_enabled` method of the components config is modelled as a
boolean field. -/

/-- Changelog component configuration. -/
structure ChangelogConfig where
  rss_feed : Bool
deriving DecidableEq, Repr

/-- Which release-source client to use (`config.components.source`). -/
inductive ReleasesSource where
  | gitHub
  | axodotdev
deriving DecidableEq, Repr

/-- The component section of the configuration, restricted to the fields
`Site` reads. -/
structure Components where
  artifacts_enabled : Bool
  changelog : Option ChangelogConfig
  funding : Option Unit
  mdbook : Option Unit
  source : Option ReleasesSource
deriving DecidableEq, Repr

/-- The project section of the configuration. -/
structure Project where
  name : String
  repository : Option String
  readme_path : String
deriving DecidableEq, Repr

/-- The build section of the configuration. -/
structure BuildConfig where
  dist_dir : List String
  additional_pages : List String
deriving DecidableEq, Repr

/-- The configuration fields consumed by `Site`. -/
structure Config where
  project : Project
  build : BuildConfig
  components : Components
deriving DecidableEq, Repr

/-! ## Page constructors

Template rendering is an external collaborator; each page constructor
records which template produced the page and the data it was rendered
from, so that distinct inputs give distinct contents. -/

/-- Renders the release list of a context to a string, recording tags and
the visibility marking, so that page contents depend on the context they
were rendered from. -/
def renderCtx (c : Context) : String :=
  String.intercalate ","
    (c.releases.map fun r =>
      r.version_tag ++ (if r.artifacts.scripts_viewable then "+viewable" else ""))

/-- Modelled from the spec: `page::source::is_markdown` recognizes a
markdown additional-page source. -/
def is_markdown (path : String) : Bool :=
  path.endsWith ".md"

/-- Modelled from the spec: the output file name chosen by
`Page::new_from_markdown` for an additional page, `X.md` becoming
`X.html`. -/
def mdHtmlName (path : String) : String :=
  path.dropRight 3 ++ ".html"

/-- An additional page rendered from one markdown source file. -/
def additionalPage (path : String) : Page :=
  { filename := [mdHtmlName path], contents := "markdown:" ++ path }

/-- Model of `Site::build_additional_pages`: one page per markdown file among the
configured additional pages; non-markdown files are skipped with a
warning. -/
def Site.build_additional_pages (files : List String) : List Page :=
  (files.filter is_markdown).map additionalPage

/-- The index page rendered from the readme together with the artifacts
template context (`Page::new_from_both` with the artifacts context). -/
def artifactsIndexPage (cfg : Config) (c : Context) : Page :=
  { filename := ["index.html"]
  , contents := "index+artifacts:" ++ cfg.project.readme_path ++ ":" ++ renderCtx c }

/-- The artifacts page (`Page::new_from_template` on `artifacts.html`). -/
def artifactsHtmlPage (c : Context) : Page :=
  { filename := ["artifacts.html"], contents := "artifacts:" ++ renderCtx c }

/-- The changelog index page. -/
def changelogIndexPage (c : Context) : Page :=
  { filename := ["changelog.html"], contents := "changelog_index:" ++ renderCtx c }

/-- The RSS feed page for the changelog. -/
def changelogRssPage (c : Context) : Page :=
  { filename := ["changelog.rss"], contents := "rss:" ++ renderCtx c }

/-- The per-release changelog page, named `changelog/<tag>.html`. -/
def changelogSinglePage (r : Release) : Page :=
  { filename := ["changelog", r.version_tag ++ ".html"]
  , contents := "changelog_single:" ++ r.version_tag }

/-- The funding page. -/
def fundingPage : Page :=
  { filename := ["funding.html"], contents := "funding" }

/-- The plain fallback index page: a rendering of the project's readme
with an empty template context. -/
def plainIndexPage (cfg : Config) : Page :=
  { filename := ["index.html"], contents := "index+plain:" ++ cfg.project.readme_path }

/-! ## The orchestrator

Fallible collaborators are passed in explicitly: `fetch` is the outcome of
`Context::new_github` / `Context::new_axodotdev`, and `hasReleases` the
outcome of the cheap existence check
`GithubRelease::repo_has_releases`. -/

/-- Model of `Site::needs_context`: a context is needed when a repository is
configured and either a release-consuming component (artifacts,
changelog, funding) is enabled, or the cheap existence check reports
qualifying releases. The check is short-circuited: it only runs (and can
only fail) when no component forces the answer. -/
def Site.needs_context (cfg : Config) (hasReleases : Except Unit Bool) :
    Except Unit Bool :=
  match cfg.project.repository with
  | none => .ok false
  | some _ =>
    if cfg.components.artifacts_enabled || cfg.components.changelog.isSome
        || cfg.components.funding.isSome then
      .ok true
    else
      hasReleases

/-- Model of `Site::build_context`: with no repository configured, synthesize the
current-working-tree context directly; otherwise take the fetched context,
degrading a fetch error to the synthetic context with a logged warning
(the boolean records that the warning was printed). -/
def Site.build_context (cfg : Config) (fetch : Except Unit Context) :
    Context × Bool :=
  match cfg.project.repository with
  | none => (Context.new_current, false)
  | some _ =>
    match fetch with
    | .ok c => (c, false)
    | .error _ => (Context.new_current, true)

/-- Model of `Site::build_changelog_pages`: the changelog index page, then the RSS
page when the changelog config asks for a feed, then one page per release
— unless the context consists of exactly one release whose source is the
current-working-tree placeholder. -/
def Site.build_changelog_pages (c : Context) (cfg : Config) : List Page :=
  [changelogIndexPage c]
    ++ (if (cfg.components.changelog.map (·.rss_feed)).getD false
        then [changelogRssPage c] else [])
    ++ (match c.releases with
        | [r] =>
          if r.source.is_current_state then []
          else c.releases.map changelogSinglePage
        | _ => c.releases.map changelogSinglePage)

/-- The artifacts block of `Site::build_single`: when artifacts are
enabled and the context has a latest release, the latest release's
artifacts are made viewable in place, the richer index page is prepared,
and the artifacts page is emitted; otherwise nothing happens. Returns the
(possibly mutated) context, the prepared index page if any, and the
artifacts page set. -/
def Site.artifactsStep (cfg : Config) (c : Context) :
    Context × Option Page × List Page :=
  if cfg.components.artifacts_enabled then
    match c.latestIdx with
    | some i =>
      let c1 : Context :=
        { releases :=
            modifyIdx c.releases i fun r =>
              { r with artifacts := r.artifacts.make_scripts_viewable } }
      (c1, some (artifactsIndexPage cfg c1), [artifactsHtmlPage c1])
    | none => (c, none, [])
  else
    (c, none, [])

/-- The outcome of one `Site::build_single` run: the emitted pages in
order, whether the fetch-failure warning was printed, and the final state
of the context (if one was built). -/
structure BuildResult where
  pages : List Page
  warnedFetch : Bool
  finalContext : Option Context
deriving DecidableEq, Repr

/-- Model of `Site::build_single`: decide whether a context is needed (propagating
an existence-check failure), build it, then emit additional pages, the
artifacts pages (mutating the latest release's artifact visibility), the
changelog pages, the funding page, and finally exactly one index page —
the richer artifacts index if it was prepared, the plain readme rendering
otherwise. -/
def Site.build_single (cfg : Config) (fetch : Except Unit Context)
    (hasReleases : Except Unit Bool) : Except Unit BuildResult :=
  match Site.needs_context cfg hasReleases with
  | .error e => .error e
  | .ok needs =>
    if needs then
      let cw := Site.build_context cfg fetch
      let step := Site.artifactsStep cfg cw.1
      .ok { pages :=
              Site.build_additional_pages cfg.build.additional_pages
                ++ step.2.2
                ++ (if cfg.components.changelog.isSome
                    then Site.build_changelog_pages step.1 cfg else [])
                ++ (if cfg.components.funding.isSome then [fundingPage] else [])
                ++ [step.2.1.getD (plainIndexPage cfg)]
          , warnedFetch := cw.2
          , finalContext := some step.1 }
    else
      .ok { pages :=
              Site.build_additional_pages cfg.build.additional_pages
                ++ [plainIndexPage cfg]
          , warnedFetch := false
          , finalContext := none }

/-! ## Workspace coordinator

`Site::build_multi` mutates the process working directory around each
member build. The directory becomes explicit state: the member build
function receives the directory it runs in, and the fold returns, besides
the member results, the final working directory and the trace of
`(slug, working directory at build time)` pairs. -/

/-- One workspace member: slug, filesystem path, resolved configuration. -/
structure WorkspaceMember where
  slug : String
  path : List String
  config : Config
deriving DecidableEq, Repr

/-- The member loop of `Site::build_multi`: for each member, the working
directory is set to the member's path, the member is built there, and on
success the working directory is set back to the root; an error stops the
loop immediately with the directory as it then stands. -/
def Site.buildMultiGo (root : List String)
    (buildFn : WorkspaceMember → List String → Except Unit BuildResult) :
    List WorkspaceMember → List String → List (String × List String) →
    List BuildResult →
    Except Unit (List BuildResult) × List String × List (String × List String)
  | [], cwd, log, acc => (.ok acc, cwd, log)
  | m :: ms, _cwd, log, acc =>
    match buildFn m m.path with
    | .error e => (.error e, m.path, log ++ [(m.slug, m.path)])
    | .ok s =>
      Site.buildMultiGo root buildFn ms root (log ++ [(m.slug, m.path)]) (acc ++ [s])

/-- Model of `Site::build_multi`, starting from the workspace root as the current
working directory. -/
def Site.build_multi (root : List String) (members : List WorkspaceMember)
    (buildFn : WorkspaceMember → List String → Except Unit BuildResult) :
    Except Unit (List BuildResult) × List String × List (String × List String) :=
  Site.buildMultiGo root buildFn members root [] []

/-! ## Helper lemmas -/

/-- Lemma: `modifyIdx` preserves the length of the list. -/
theorem modifyIdx_length (l : List Release) (i : Nat) (f : Release → Release) :
    (modifyIdx l i f).length = l.length := by
  induction l generalizing i with
  | nil => rfl
  | cons a as ih =>
    cases i with
    | zero => rfl
    | succ n => simp [modifyIdx, ih]

/-- Lemma: `modifyIdx` leaves every other index unchanged. -/
theorem modifyIdx_getElem?_ne (l : List Release) (i j : Nat) (f : Release → Release)
    (h : j ≠ i) : (modifyIdx l i f)[j]? = l[j]? := by
  induction l generalizing i j with
  | nil => rfl
  | cons a as ih =>
    cases i with
    | zero =>
      cases j with
      | zero => exact absurd rfl h
      | succ k => simp [modifyIdx]
    | succ n =>
      cases j with
      | zero => simp [modifyIdx]
      | succ k =>
        simp only [modifyIdx, List.getElem?_cons_succ]
        exact ih n k fun hh => h (by rw [hh])

/-- Lemma: `modifyIdx` applies `f` at the modified index. -/
theorem modifyIdx_getElem?_eq (l : List Release) (i : Nat) (f : Release → Release) :
    (modifyIdx l i f)[i]? = l[i]?.map f := by
  induction l generalizing i with
  | nil => rfl
  | cons a as ih =>
    cases i with
    | zero => simp [modifyIdx]
    | succ n => simpa [modifyIdx] using ih n

/-- A status-preserving per-release update does not move `findFirst` over
the parsed predicate. -/
theorem findFirst_modifyIdx (l : List Release) (i : Nat) (f : Release → Release)
    (hf : ∀ r, ((f r).status).parsed = (r.status).parsed) :
    findFirst (fun r => r.status.parsed) (modifyIdx l i f) =
      findFirst (fun r => r.status.parsed) l := by
  induction l generalizing i with
  | nil => rfl
  | cons a as ih =>
    cases i with
    | zero => simp [modifyIdx, findFirst, hf a]
    | succ n => simp [modifyIdx, findFirst, ih n]

/-- The artifact-visibility adjustment of the latest release does not
change which release is latest. -/
theorem artifactsStep_latestIdx (cfg : Config) (c : Context) :
    ((Site.artifactsStep cfg c).1).latestIdx = c.latestIdx := by
  unfold Site.artifactsStep
  split
  · split
    · simp only [Context.latestIdx]
      exact findFirst_modifyIdx _ _ _ fun r => rfl
    · rfl
  · rfl

/-- The artifacts page set of the artifacts step contains only pages named
`artifacts.html`. -/
theorem artifactsStep_art_filenames (cfg : Config) (c : Context) (pg : Page)
    (h : pg ∈ (Site.artifactsStep cfg c).2.2) : pg.filename = ["artifacts.html"] := by
  unfold Site.artifactsStep at h
  split at h
  · split at h
    · simp only [List.mem_singleton] at h
      rw [h]
      rfl
    · simp at h
  · simp at h

/-- The index page coming out of the artifacts step (richer artifacts
index or plain readme fallback) is always named `index.html`. -/
theorem artifactsStep_index_filename (cfg : Config) (c : Context) :
    (((Site.artifactsStep cfg c).2.1).getD (plainIndexPage cfg)).filename =
      ["index.html"] := by
  unfold Site.artifactsStep
  split
  · split <;> rfl
  · rfl

/-- The artifacts step prepares no richer index exactly when artifacts are
disabled or the context has no latest release. -/
theorem artifactsStep_index_none_iff (cfg : Config) (c : Context) :
    (Site.artifactsStep cfg c).2.1 = none ↔
      (cfg.components.artifacts_enabled = false ∨ c.latestIdx = none) := by
  unfold Site.artifactsStep
  split
  · rename_i henabled
    split
    · rename_i i hi
      simp [henabled, hi]
    · rename_i hi
      simp [henabled, hi]
  · rename_i henabled
    simp only [Bool.not_eq_true] at henabled
    simp [henabled]

/-- The artifacts step emits no artifacts page exactly when artifacts are
disabled or the context has no latest release. -/
theorem artifactsStep_pages_nil_iff (cfg : Config) (c : Context) :
    (Site.artifactsStep cfg c).2.2 = [] ↔
      (cfg.components.artifacts_enabled = false ∨ c.latestIdx = none) := by
  unfold Site.artifactsStep
  split
  · rename_i henabled
    split
    · rename_i i hi
      simp [henabled, hi]
    · rename_i hi
      simp [henabled, hi]
  · rename_i henabled
    simp only [Bool.not_eq_true] at henabled
    simp [henabled]

/-- The context coming out of the artifacts step: unchanged, or the
in-place visibility update of the latest release. -/
theorem artifactsStep_fst (cfg : Config) (c : Context) :
    (Site.artifactsStep cfg c).1 = c ∨
      ∃ i, c.latestIdx = some i ∧
        (Site.artifactsStep cfg c).1 =
          { releases :=
              modifyIdx c.releases i fun r =>
                { r with artifacts := r.artifacts.make_scripts_viewable } } := by
  unfold Site.artifactsStep
  split
  · split
    · rename_i henabled i hi
      exact Or.inr ⟨i, hi, rfl⟩
    · exact Or.inl rfl
  · exact Or.inl rfl

/-- Every page of the changelog page set is the changelog index, the RSS
feed, or a per-release page under `changelog/`. -/
theorem build_changelog_pages_filenames (c : Context) (cfg : Config) (pg : Page)
    (h : pg ∈ Site.build_changelog_pages c cfg) :
    pg.filename = ["changelog.html"] ∨ pg.filename = ["changelog.rss"] ∨
      ∃ t, pg.filename = ["changelog", t] := by
  unfold Site.build_changelog_pages at h
  rw [List.mem_append, List.mem_append] at h
  rcases h with (h | h) | h
  · simp only [List.mem_singleton] at h
    exact Or.inl (by rw [h]; rfl)
  · split at h
    · simp only [List.mem_singleton] at h
      exact Or.inr (Or.inl (by rw [h]; rfl))
    · simp at h
  · refine Or.inr (Or.inr ?_)
    have : ∃ r, r ∈ c.releases ∧ pg = changelogSinglePage r := by
      split at h
      · split at h
        · simp at h
        · rcases List.mem_map.mp h with ⟨r, hr, hpg⟩
          exact ⟨r, hr, hpg.symm⟩
      · rcases List.mem_map.mp h with ⟨r, hr, hpg⟩
        exact ⟨r, hr, hpg.symm⟩
    rcases this with ⟨r, _, hpg⟩
    exact ⟨r.version_tag ++ ".html", by rw [hpg]; rfl⟩

/-- Additional pages carry the file name chosen for their markdown
source. -/
theorem build_additional_pages_filenames (files : List String) (pg : Page)
    (h : pg ∈ Site.build_additional_pages files) :
    ∃ p, p ∈ files ∧ pg.filename = [mdHtmlName p] := by
  unfold Site.build_additional_pages at h
  rcases List.mem_map.mp h with ⟨p, hp, hpg⟩
  exact ⟨p, (List.mem_filter.mp hp).1, by rw [← hpg]; rfl⟩

/-- Case analysis of a successful `Site::build_single` run: either no
context was needed and the run is the additional pages plus the plain
index, or a context was needed and the run is the five-segment
concatenation. -/
theorem build_single_ok_cases (cfg : Config) (fetch : Except Unit Context)
    (hr : Except Unit Bool) (r : BuildResult)
    (h : Site.build_single cfg fetch hr = .ok r) :
    (Site.needs_context cfg hr = .ok false ∧
      r = { pages := Site.build_additional_pages cfg.build.additional_pages
                      ++ [plainIndexPage cfg]
          , warnedFetch := false, finalContext := none }) ∨
    (Site.needs_context cfg hr = .ok true ∧
      r = { pages := Site.build_additional_pages cfg.build.additional_pages
                      ++ (Site.artifactsStep cfg (Site.build_context cfg fetch).1).2.2
                      ++ (if cfg.components.changelog.isSome
                          then Site.build_changelog_pages
                                 (Site.artifactsStep cfg (Site.build_context cfg fetch).1).1 cfg
                          else [])
                      ++ (if cfg.components.funding.isSome then [fundingPage] else [])
                      ++ [((Site.artifactsStep cfg (Site.build_context cfg fetch).1).2.1).getD
                            (plainIndexPage cfg)]
          , warnedFetch := (Site.build_context cfg fetch).2
          , finalContext := some (Site.artifactsStep cfg (Site.build_context cfg fetch).1).1 }) := by
  unfold Site.build_single at h
  cases hnc : Site.needs_context cfg hr with
  | error e => rw [hnc] at h; exact absurd h (by simp)
  | ok needs =>
    rw [hnc] at h
    cases needs with
    | false =>
      simp only [if_false, Bool.false_eq_true] at h
      exact Or.inl ⟨rfl, by injection h with h'; rw [← h']⟩
    | true =>
      simp only [if_true] at h
      refine Or.inr ⟨rfl, ?_⟩
      injection h with h'
      rw [← h']

/-- A context consisting of exactly one release whose source is the
synthetic current-working-tree placeholder. -/
def Context.isSoloCurrent (c : Context) : Bool :=
  match c.releases with
  | [r] => r.source.is_current_state
  | _ => false

/-- The member loop, under a working directory equal to the root and with
every member building successfully, returns all results, restores the
directory to the root, and builds each member under that member's own
path. -/
theorem buildMultiGo_all_ok (root : List String)
    (buildFn : WorkspaceMember → List String → Except Unit BuildResult)
    (members : List WorkspaceMember)
    (h : ∀ x ∈ members, ∃ s, buildFn x x.path = .ok s) :
    ∀ log acc, ∃ results,
      Site.buildMultiGo root buildFn members root log acc =
        (.ok (acc ++ results), root, log ++ members.map fun x => (x.slug, x.path)) := by
  induction members with
  | nil => exact fun log acc => ⟨[], by simp [Site.buildMultiGo]⟩
  | cons m ms ih =>
    intro log acc
    obtain ⟨s, hs⟩ := h m (List.mem_cons_self m ms)
    obtain ⟨results, hres⟩ :=
      ih (fun x hx => h x (List.mem_cons_of_mem m hx))
        (log ++ [(m.slug, m.path)]) (acc ++ [s])
    refine ⟨s :: results, ?_⟩
    simp only [Site.buildMultiGo, hs]
    rw [hres]
    simp

/-- The member loop stops at the first failing member: the error
propagates, the working directory is left at the failing member's path,
and members after it are never built. -/
theorem buildMultiGo_failure (root : List String)
    (buildFn : WorkspaceMember → List String → Except Unit BuildResult)
    (pre post : List WorkspaceMember) (m : WorkspaceMember) (e : Unit)
    (hpre : ∀ x ∈ pre, ∃ s, buildFn x x.path = .ok s)
    (hm : buildFn m m.path = .error e) :
    ∀ log acc,
      Site.buildMultiGo root buildFn (pre ++ m :: post) root log acc =
        (.error e, m.path,
          log ++ (pre.map fun x => (x.slug, x.path)) ++ [(m.slug, m.path)]) := by
  induction pre with
  | nil =>
    intro log acc
    rw [List.nil_append]
    simp only [Site.buildMultiGo, hm]
    simp
  | cons x pre' ih =>
    intro log acc
    obtain ⟨s, hs⟩ := hpre x (List.mem_cons_self x pre')
    have hrec := ih (fun y hy => hpre y (List.mem_cons_of_mem x hy))
      (log ++ [(x.slug, x.path)]) (acc ++ [s])
    rw [List.cons_append]
    simp only [Site.buildMultiGo, hs]
    rw [hrec]
    simp

/-- C3: in a workspace build (`Site::build_multi`), if a member's build
returns an error, the remaining members are not processed and the error
propagates with the process working directory left at the failing
member's path rather than restored to the workspace root; on success the
directory is switched to each member's path before its build and is back
at the root at the end. -/
theorem build_multi_directory_semantics (root : List String)
    (buildFn : WorkspaceMember → List String → Except Unit BuildResult)
    (pre post : List WorkspaceMember) (m : WorkspaceMember) (e : Unit)
    (hpre : ∀ x ∈ pre, ∃ s, buildFn x x.path = .ok s)
    (hm : buildFn m m.path = .error e) :
    Site.build_multi root (pre ++ m :: post) buildFn =
      (.error e, m.path,
        (pre.map fun x => (x.slug, x.path)) ++ [(m.slug, m.path)]) ∧
    (∀ members : List WorkspaceMember,
      (∀ x ∈ members, ∃ s, buildFn x x.path = .ok s) →
      ∃ results, Site.build_multi root members buildFn =
        (.ok results, root, members.map fun x => (x.slug, x.path))) := by
  constructor
  · have := buildMultiGo_failure root buildFn pre post m e hpre hm [] []
    unfold Site.build_multi
    rw [this]
    simp
  · intro members hmem
    obtain ⟨results, hres⟩ := buildMultiGo_all_ok root buildFn members hmem [] []
    refine ⟨results, ?_⟩
    unfold Site.build_multi
    rw [hres]
    simp

/-- A configuration with no repository and everything disabled. -/
def cfgNoRepo : Config :=
  { project := { name := "proj", repository := none, readme_path := "README.md" }
  , build := { dist_dir := ["public"], additional_pages := [] }
  , components := { artifacts_enabled := false, changelog := none
                  , funding := none, mdbook := none, source := none } }

/-- An empty member build result. -/
def emptyResult : BuildResult :=
  { pages := [], warnedFetch := false, finalContext := none }

/-- Two concrete workspace members. -/
def memberA : WorkspaceMember :=
  { slug := "a", path := ["root", "a"], config := cfgNoRepo }

/-- Second concrete workspace member. -/
def memberB : WorkspaceMember :=
  { slug := "b", path := ["root", "b"], config := cfgNoRepo }

/-- A member build function that succeeds on member `a` and fails on
everything else. -/
def failsOnB : WorkspaceMember → List String → Except Unit BuildResult :=
  fun m _ => if m.slug == "a" then .ok emptyResult else .error ()

/-- Witness for C3: with members `[a, b]` where `b` fails, the build
aborts with the working directory left at `b`'s path and only `a` and `b`
in the build trace. -/
theorem build_multi_directory_semantics_witness :
    Site.build_multi ["root"] [memberA, memberB] failsOnB =
      (.error (), ["root", "b"], [("a", ["root", "a"]), ("b", ["root", "b"])]) := by
  have h := (build_multi_directory_semantics ["root"] failsOnB [memberA] []
    memberB ()
    (by
      intro x hx
      rw [List.mem_singleton] at hx
      subst hx
      exact ⟨emptyResult, rfl⟩)
    rfl).1
  simpa [memberA, memberB] using h

/-- C4: for a project with no configured repository, `Site::build_context`
yields a Context containing exactly one Release whose source is
`CurrentWorkingTree` with an empty artifact list, and that release is
reported as the latest release (it is at the index `latestIdx` points
to). -/
theorem build_context_no_repository (cfg : Config) (fetch : Except Unit Context)
    (h : cfg.project.repository = none) :
    ∃ r, (Site.build_context cfg fetch).1.releases = [r] ∧
      r.source = .currentWorkingTree ∧
      r.artifacts.items = [] ∧
      (Site.build_context cfg fetch).1.latestIdx = some 0 := by
  unfold Site.build_context
  rw [h]
  exact ⟨_, rfl, rfl, rfl, rfl⟩

/-- Witness for C4 at a concrete repository-less configuration. -/
theorem build_context_no_repository_witness :
    cfgNoRepo.project.repository = none ∧
    ∃ r, (Site.build_context cfgNoRepo (.error ())).1.releases = [r] ∧
      r.source = .currentWorkingTree ∧
      r.artifacts.items = [] ∧
      (Site.build_context cfgNoRepo (.error ())).1.latestIdx = some 0 :=
  ⟨rfl, build_context_no_repository cfgNoRepo (.error ()) rfl⟩

/-- When the cheap existence check succeeds, `Site::needs_context`
computes exactly `repository configured && (artifacts || changelog ||
funding || has-releases)`. -/
theorem needs_context_eq (cfg : Config) (b : Bool) :
    Site.needs_context cfg (.ok b) =
      .ok (cfg.project.repository.isSome
            && (cfg.components.artifacts_enabled
                || cfg.components.changelog.isSome
                || cfg.components.funding.isSome || b)) := by
  unfold Site.needs_context
  cases hrep : cfg.project.repository with
  | none => simp
  | some u =>
    by_cases hcond : (cfg.components.artifacts_enabled
        || cfg.components.changelog.isSome
        || cfg.components.funding.isSome) = true
    · simp [hcond]
    · simp only [Bool.not_eq_true] at hcond
      simp [hcond]

/-- C5: the per-project build constructs a Context exactly when a
repository is configured and (a release-consuming component — artifacts,
changelog or funding — is enabled, or the cheap existence check reports
qualifying releases); otherwise aggregation is skipped and the build
still completes, without a Context. -/
theorem needs_context_gating (cfg : Config) (fetch : Except Unit Context) (b : Bool) :
    Site.needs_context cfg (.ok b) =
      .ok (cfg.project.repository.isSome
            && (cfg.components.artifacts_enabled
                || cfg.components.changelog.isSome
                || cfg.components.funding.isSome || b)) ∧
    ∃ r, Site.build_single cfg fetch (.ok b) = .ok r ∧
      r.finalContext.isSome =
        (cfg.project.repository.isSome
          && (cfg.components.artifacts_enabled
              || cfg.components.changelog.isSome
              || cfg.components.funding.isSome || b)) := by
  have h1 := needs_context_eq cfg b
  refine ⟨h1, ?_⟩
  unfold Site.build_single
  rw [h1]
  cases hN : (cfg.project.repository.isSome
      && (cfg.components.artifacts_enabled
          || cfg.components.changelog.isSome
          || cfg.components.funding.isSome || b)) with
  | false => exact ⟨_, rfl, rfl⟩
  | true => exact ⟨_, rfl, rfl⟩

/-- C10: when the changelog component is enabled,
`Site::build_changelog_pages` emits the `changelog.html` index page
first, emits the `changelog.rss` page exactly when the rss_feed option is
configured, and emits one `changelog/<tag>.html` page per release of the
context — except when the context consists of exactly one release whose
source is the synthetic current-working-tree placeholder, in which case
no per-release pages are emitted. -/
theorem changelog_pages_spec (c : Context) (cfg : Config) (ccfg : ChangelogConfig)
    (h : cfg.components.changelog = some ccfg) :
    Site.build_changelog_pages c cfg =
      [changelogIndexPage c]
        ++ (if ccfg.rss_feed then [changelogRssPage c] else [])
        ++ (if c.isSoloCurrent then [] else c.releases.map changelogSinglePage) ∧
    (c.isSoloCurrent = true ↔
      ∃ r, c.releases = [r] ∧ r.source.is_current_state = true) := by
  constructor
  · unfold Site.build_changelog_pages Context.isSoloCurrent
    rw [h]
    rcases hrel : c.releases with _ | ⟨a, _ | ⟨b2, rest⟩⟩ <;> simp [hrel]
  · unfold Context.isSoloCurrent
    rcases hrel : c.releases with _ | ⟨a, _ | ⟨b2, rest⟩⟩ <;> simp [hrel]

/-- A fully parsed GitHub release. -/
def relV2 : Release :=
  { version_tag := "v2.0", source := .gitHub, status := .full
  , artifacts := { items := ["installer.sh"], scripts_viewable := false } }

/-- A second fully parsed GitHub release. -/
def relV1 : Release :=
  { version_tag := "v1.9", source := .gitHub, status := .full
  , artifacts := { items := [], scripts_viewable := false } }

/-- A two-release fetched context. -/
def ctxTwo : Context := { releases := [relV2, relV1] }

/-- A configuration with a repository and the changelog component (with
RSS) enabled. -/
def cfgChangelogRss : Config :=
  { project := { name := "proj", repository := some "https://github.com/o/r"
               , readme_path := "README.md" }
  , build := { dist_dir := ["public"], additional_pages := [] }
  , components := { artifacts_enabled := false
                  , changelog := some { rss_feed := true }
                  , funding := none, mdbook := none, source := none } }

/-- Witness for C10 at a concrete two-release context with the RSS feed
enabled. -/
theorem changelog_pages_spec_witness :
    Site.build_changelog_pages ctxTwo cfgChangelogRss =
      [changelogIndexPage ctxTwo]
        ++ (if (ChangelogConfig.mk true).rss_feed then [changelogRssPage ctxTwo] else [])
        ++ (if ctxTwo.isSoloCurrent then []
            else ctxTwo.releases.map changelogSinglePage) ∧
    (ctxTwo.isSoloCurrent = true ↔
      ∃ r, ctxTwo.releases = [r] ∧ r.source.is_current_state = true) :=
  changelog_pages_spec ctxTwo cfgChangelogRss (ChangelogConfig.mk true) rfl

/-- C8: the pages emitted by a successful `Site::build_single` run are, in
order: the additional pages, then the artifacts pages, then the changelog
pages, then the funding page, then the index page — a fixed order
determined by the configuration, not by fetch timing. -/
theorem build_single_page_order (cfg : Config) (fetch : Except Unit Context)
    (hr : Except Unit Bool) (r : BuildResult)
    (h : Site.build_single cfg fetch hr = .ok r) :
    ∃ art ch fu idx,
      r.pages = Site.build_additional_pages cfg.build.additional_pages
        ++ art ++ ch ++ fu ++ [idx] ∧
      (∀ pg ∈ art, pg.filename = ["artifacts.html"]) ∧
      (∀ pg ∈ ch, pg.filename = ["changelog.html"] ∨
        pg.filename = ["changelog.rss"] ∨ ∃ t, pg.filename = ["changelog", t]) ∧
      (∀ pg ∈ fu, pg.filename = ["funding.html"]) ∧
      idx.filename = ["index.html"] := by
  rcases build_single_ok_cases cfg fetch hr r h with ⟨hn, hres⟩ | ⟨hn, hres⟩
  · refine ⟨[], [], [], plainIndexPage cfg, ?_, ?_, ?_, ?_, rfl⟩
    · rw [hres]
      simp
    · intro pg hpg
      exact absurd hpg (List.not_mem_nil pg)
    · intro pg hpg
      exact absurd hpg (List.not_mem_nil pg)
    · intro pg hpg
      exact absurd hpg (List.not_mem_nil pg)
  · refine ⟨(Site.artifactsStep cfg (Site.build_context cfg fetch).1).2.2,
      (if cfg.components.changelog.isSome
       then Site.build_changelog_pages
              (Site.artifactsStep cfg (Site.build_context cfg fetch).1).1 cfg
       else []),
      (if cfg.components.funding.isSome then [fundingPage] else []),
      ((Site.artifactsStep cfg (Site.build_context cfg fetch).1).2.1).getD
        (plainIndexPage cfg), ?_, ?_, ?_, ?_, ?_⟩
    · rw [hres]
    · exact fun pg hpg =>
        artifactsStep_art_filenames cfg (Site.build_context cfg fetch).1 pg hpg
    · intro pg hpg
      by_cases hcg : cfg.components.changelog.isSome = true
      · rw [if_pos hcg] at hpg
        exact build_changelog_pages_filenames _ cfg pg hpg
      · rw [if_neg hcg] at hpg
        exact absurd hpg (List.not_mem_nil pg)
    · intro pg hpg
      by_cases hfu : cfg.components.funding.isSome = true
      · rw [if_pos hfu] at hpg
        rw [List.mem_singleton] at hpg
        rw [hpg]
        rfl
      · rw [if_neg hfu] at hpg
        exact absurd hpg (List.not_mem_nil pg)
    · exact artifactsStep_index_filename cfg (Site.build_context cfg fetch).1

/-- The result of a repository-less build: just the plain index page. -/
def resNoRepo : BuildResult :=
  { pages := [plainIndexPage cfgNoRepo], warnedFetch := false, finalContext := none }

/-- Witness for C8 at a concrete repository-less run. -/
theorem build_single_page_order_witness :
    ∃ art ch fu idx,
      resNoRepo.pages = Site.build_additional_pages cfgNoRepo.build.additional_pages
        ++ art ++ ch ++ fu ++ [idx] ∧
      (∀ pg ∈ art, pg.filename = ["artifacts.html"]) ∧
      (∀ pg ∈ ch, pg.filename = ["changelog.html"] ∨
        pg.filename = ["changelog.rss"] ∨ ∃ t, pg.filename = ["changelog", t]) ∧
      (∀ pg ∈ fu, pg.filename = ["funding.html"]) ∧
      idx.filename = ["index.html"] :=
  build_single_page_order cfgNoRepo (.error ()) (.ok false) resNoRepo (by rfl)

/-- The last element of a list ending in a singleton. -/
theorem getLast?_append_singleton {α : Type} (l : List α) (a : α) :
    (l ++ [a]).getLast? = some a := by
  induction l with
  | nil => rfl
  | cons x xs ih =>
    rw [List.cons_append, List.getLast?_cons]
    rw [ih]
    cases xs <;> rfl

/-- No changelog page is named `index.html`. -/
theorem changelog_pages_not_index (c : Context) (cfg : Config) (pg : Page)
    (h : pg ∈ Site.build_changelog_pages c cfg) :
    (pg.filename == ["index.html"]) = false := by
  rcases build_changelog_pages_filenames c cfg pg h with h1 | h1 | ⟨t, h1⟩ <;> rw [h1]
  · rw [beq_eq_false_iff_ne]
    decide
  · rw [beq_eq_false_iff_ne]
    decide
  · rw [beq_eq_false_iff_ne]
    intro heq
    injection heq with ha _
    exact absurd ha (by decide)

/-- Under a non-colliding additional-page configuration, no additional
page is counted as an index page. -/
theorem additional_pages_countP_index (files : List String)
    (hAdd : ∀ p ∈ files, mdHtmlName p ≠ "index.html") :
    ((Site.build_additional_pages files).countP
      fun pg => pg.filename == ["index.html"]) = 0 := by
  rw [List.countP_eq_zero]
  intro pg hpg
  obtain ⟨p, hp, hfn⟩ := build_additional_pages_filenames files pg hpg
  rw [hfn]
  simp only [beq_iff_eq, List.cons.injEq, and_true]
  exact hAdd p hp

/-- C7: every successful `Site::build_single` run emits exactly one page
named `index.html` (given that no additional page collides with that
name), and when no context was built, artifacts are disabled, or the
context has no latest release, that index page is the plain readme
rendering, emitted last. -/
theorem single_root_index_page (cfg : Config) (fetch : Except Unit Context)
    (hr : Except Unit Bool) (r : BuildResult)
    (hAdd : ∀ p ∈ cfg.build.additional_pages, mdHtmlName p ≠ "index.html")
    (h : Site.build_single cfg fetch hr = .ok r) :
    (r.pages.countP fun pg => pg.filename == ["index.html"]) = 1 ∧
    ((Site.needs_context cfg hr = .ok false ∨
      cfg.components.artifacts_enabled = false ∨
      (Site.build_context cfg fetch).1.latestIdx = none) →
      r.pages.getLast? = some (plainIndexPage cfg)) := by
  have hadd0 := additional_pages_countP_index cfg.build.additional_pages hAdd
  rcases build_single_ok_cases cfg fetch hr r h with ⟨hn, hres⟩ | ⟨hn, hres⟩
  · subst hres
    constructor
    · simp only [List.countP_append, hadd0]
      rfl
    · intro _
      exact getLast?_append_singleton _ _
  · subst hres
    have hart0 : ((Site.artifactsStep cfg (Site.build_context cfg fetch).1).2.2.countP
        fun pg => pg.filename == ["index.html"]) = 0 := by
      rw [List.countP_eq_zero]
      intro pg hpg
      rw [artifactsStep_art_filenames cfg _ pg hpg]
      decide
    have hch0 : (((if cfg.components.changelog.isSome
        then Site.build_changelog_pages
               (Site.artifactsStep cfg (Site.build_context cfg fetch).1).1 cfg
        else []) : List Page).countP
        fun pg => pg.filename == ["index.html"]) = 0 := by
      rw [List.countP_eq_zero]
      intro pg hpg
      by_cases hcg : cfg.components.changelog.isSome = true
      · rw [if_pos hcg] at hpg
        rw [changelog_pages_not_index _ cfg pg hpg]
        simp
      · rw [if_neg hcg] at hpg
        exact absurd hpg (List.not_mem_nil pg)
    have hfu0 : (((if cfg.components.funding.isSome then [fundingPage] else [])
        : List Page).countP fun pg => pg.filename == ["index.html"]) = 0 := by
      rw [List.countP_eq_zero]
      intro pg hpg
      by_cases hfu : cfg.components.funding.isSome = true
      · rw [if_pos hfu] at hpg
        rw [List.mem_singleton] at hpg
        rw [hpg]
        decide
      · rw [if_neg hfu] at hpg
        exact absurd hpg (List.not_mem_nil pg)
    have hidx1 : (([((Site.artifactsStep cfg (Site.build_context cfg fetch).1).2.1).getD
        (plainIndexPage cfg)] : List Page).countP
        fun pg => pg.filename == ["index.html"]) = 1 := by
      rw [List.countP_cons, List.countP_nil]
      rw [artifactsStep_index_filename cfg (Site.build_context cfg fetch).1]
      rfl
    constructor
    · simp only [List.countP_append, hadd0, hart0, hch0, hfu0, hidx1]
    · intro hdisj
      rcases hdisj with hd | hd
      · rw [hn] at hd
        exact absurd (Except.ok.inj hd) (by decide)
      · have hnone : (Site.artifactsStep cfg (Site.build_context cfg fetch).1).2.1 = none :=
          (artifactsStep_index_none_iff cfg _).mpr hd
        rw [hnone]
        exact getLast?_append_singleton _ _

/-- Witness for C7 at a concrete repository-less run. -/
theorem single_root_index_page_witness :
    (resNoRepo.pages.countP fun pg => pg.filename == ["index.html"]) = 1 ∧
    ((Site.needs_context cfgNoRepo (.ok false) = .ok false ∨
      cfgNoRepo.components.artifacts_enabled = false ∨
      (Site.build_context cfgNoRepo (.error ())).1.latestIdx = none) →
      resNoRepo.pages.getLast? = some (plainIndexPage cfgNoRepo)) :=
  single_root_index_page cfgNoRepo (.error ()) (.ok false) resNoRepo
    (fun p hp => absurd hp (List.not_mem_nil p)) (by rfl)

/-- C9: after Context construction, the only mutation the build applies
to the Context is the one-time artifact-visibility adjustment of the
latest release: the release count is unchanged, every release other than
the latest is unchanged, the latest release keeps its tag, source and
parse status and at most has its artifacts replaced by their
`make_scripts_viewable` image, and which release is latest is
unchanged. -/
theorem context_mutation_frame (cfg : Config) (fetch : Except Unit Context)
    (hr : Except Unit Bool) (r : BuildResult) (c1 : Context)
    (h : Site.build_single cfg fetch hr = .ok r)
    (hc : r.finalContext = some c1) :
    c1.releases.length = (Site.build_context cfg fetch).1.releases.length ∧
    (∀ j : Nat, (Site.build_context cfg fetch).1.latestIdx ≠ some j →
      c1.releases[j]? = (Site.build_context cfg fetch).1.releases[j]?) ∧
    (∀ i : Nat, (Site.build_context cfg fetch).1.latestIdx = some i →
      ∀ r0 : Release, (Site.build_context cfg fetch).1.releases[i]? = some r0 →
      ∃ r1, c1.releases[i]? = some r1 ∧
        r1.version_tag = r0.version_tag ∧ r1.source = r0.source ∧
        r1.status = r0.status ∧
        (r1.artifacts = r0.artifacts ∨
          r1.artifacts = r0.artifacts.make_scripts_viewable)) ∧
    c1.latestIdx = (Site.build_context cfg fetch).1.latestIdx := by
  rcases build_single_ok_cases cfg fetch hr r h with ⟨hn, hres⟩ | ⟨hn, hres⟩
  · subst hres
    exact Option.noConfusion hc
  · subst hres
    have hc1 : (Site.artifactsStep cfg (Site.build_context cfg fetch).1).1 = c1 :=
      Option.some.inj hc
    have hlatest : c1.latestIdx = (Site.build_context cfg fetch).1.latestIdx := by
      rw [← hc1]
      exact artifactsStep_latestIdx cfg _
    rcases artifactsStep_fst cfg (Site.build_context cfg fetch).1 with heq | ⟨i0, hlat, heq⟩
    · rw [hc1] at heq
      rw [heq]
      exact ⟨rfl, fun j _ => rfl,
        fun i _ r0 hr0 => ⟨r0, hr0, rfl, rfl, rfl, Or.inl rfl⟩, heq ▸ hlatest⟩
    · rw [hc1] at heq
      refine ⟨?_, ?_, ?_, hlatest⟩
      · rw [heq]
        exact modifyIdx_length _ _ _
      · intro j hj
        have hji : j ≠ i0 := fun hcontr => hj (by rw [hcontr]; exact hlat)
        rw [heq]
        exact modifyIdx_getElem?_ne _ _ _ _ hji
      · intro i hi r0 hr0
        rw [hlat] at hi
        have hii : i0 = i := Option.some.inj hi
        subst hii
        refine ⟨{ r0 with artifacts := r0.artifacts.make_scripts_viewable },
          ?_, rfl, rfl, rfl, Or.inr rfl⟩
        rw [heq, modifyIdx_getElem?_eq, hr0]
        rfl

/-- The result of building with only the changelog component enabled on a
concrete two-release fetched context. -/
def resChangelog : BuildResult :=
  { pages := Site.build_changelog_pages ctxTwo cfgChangelogRss
              ++ [plainIndexPage cfgChangelogRss]
  , warnedFetch := false
  , finalContext := some ctxTwo }

/-- Witness for C9 at a concrete changelog-only run over a two-release
context. -/
theorem context_mutation_frame_witness :
    ctxTwo.releases.length =
      (Site.build_context cfgChangelogRss (.ok ctxTwo)).1.releases.length ∧
    ctxTwo.latestIdx = (Site.build_context cfgChangelogRss (.ok ctxTwo)).1.latestIdx := by
  have hfull := context_mutation_frame cfgChangelogRss (.ok ctxTwo) (.ok true)
    resChangelog ctxTwo (by rfl) (by rfl)
  exact ⟨hfull.1, hfull.2.2.2⟩

/-- A configuration with a repository and both the artifacts and the
changelog components enabled. -/
def cfgFetchFail : Config :=
  { project := { name := "proj", repository := some "https://github.com/o/r"
               , readme_path := "README.md" }
  , build := { dist_dir := ["public"], additional_pages := [] }
  , components := { artifacts_enabled := true
                  , changelog := some { rss_feed := false }
                  , funding := none, mdbook := none, source := none } }

/-- Counterexample to C2 as stated: when the release-source fetch reports
unreachable and the artifacts and changelog components are enabled, the
build completes but an `artifacts.html` page and a `changelog.html` page
ARE emitted, contrary to the claim that no artifacts or changelog pages
are emitted. -/
theorem fetch_failure_counterexample :
    ((Site.build_single cfgFetchFail (.error ()) (.ok true)).toOption.map
      fun r => r.pages.any fun pg => pg.filename == ["artifacts.html"]) = some true ∧
    ((Site.build_single cfgFetchFail (.error ()) (.ok true)).toOption.map
      fun r => r.pages.any fun pg => pg.filename == ["changelog.html"]) = some true := by
  constructor <;> rfl

/-- The expanded shape of the changelog page set. -/
theorem build_changelog_pages_eq (c : Context) (cfg : Config) :
    Site.build_changelog_pages c cfg =
      [changelogIndexPage c]
        ++ (if (cfg.components.changelog.map (·.rss_feed)).getD false
            then [changelogRssPage c] else [])
        ++ (if c.isSoloCurrent then [] else c.releases.map changelogSinglePage) := by
  unfold Site.build_changelog_pages Context.isSoloCurrent
  rcases hrel : c.releases with _ | ⟨a, _ | ⟨b2, rest⟩⟩ <;> simp [hrel]

/-- The artifacts step on the synthetic current-working-tree context
leaves a single release whose source is still the placeholder. -/
theorem artifactsStep_solo_current (cfg : Config) :
    ∃ r', (Site.artifactsStep cfg Context.new_current).1.releases = [r'] ∧
      r'.source.is_current_state = true := by
  unfold Site.artifactsStep
  cases henabled : cfg.components.artifacts_enabled with
  | false => exact ⟨_, rfl, rfl⟩
  | true => exact ⟨_, rfl, rfl⟩

/-- A context consisting of a single current-working-tree release is
solo-current. -/
theorem isSoloCurrent_of (c : Context) (r' : Release) (hrel : c.releases = [r'])
    (hsrc : r'.source.is_current_state = true) : c.isSoloCurrent = true := by
  unfold Context.isSoloCurrent
  rw [hrel]
  exact hsrc

/-- On a solo-current context every changelog page is a root-level file:
no per-release `changelog/<tag>.html` page is emitted. -/
theorem changelog_pages_len_one (c : Context) (cfg : Config)
    (hsolo : c.isSoloCurrent = true) (pg : Page)
    (hpg : pg ∈ Site.build_changelog_pages c cfg) : pg.filename.length = 1 := by
  rw [build_changelog_pages_eq, hsolo] at hpg
  simp only [if_true, List.append_nil, List.mem_append, List.mem_singleton] at hpg
  rcases hpg with hpg | hpg
  · rw [hpg]
    rfl
  · by_cases hrss : ((cfg.components.changelog.map (·.rss_feed)).getD false) = true
    · rw [if_pos hrss, List.mem_singleton] at hpg
      rw [hpg]
      rfl
    · rw [if_neg hrss] at hpg
      exact absurd hpg (List.not_mem_nil pg)

/-- C2 (amended): if Context construction returns an error, the
per-project build still completes successfully, the failure is logged as
a warning rather than aborting, the last emitted page is the index page,
and no per-release changelog page is emitted (every emitted page is a
root-level file). Artifacts and changelog index pages, however, are still
emitted when those components are enabled. -/
theorem fetch_failure_degradation (cfg : Config) (hr : Except Unit Bool)
    (h : Site.needs_context cfg hr = .ok true) :
    ∃ r, Site.build_single cfg (.error ()) hr = .ok r ∧
      r.warnedFetch = true ∧
      (r.pages.getLast?.map fun pg => pg.filename) = some ["index.html"] ∧
      (∀ pg ∈ r.pages, pg.filename.length = 1) := by
  cases hrep : cfg.project.repository with
  | none =>
    exfalso
    unfold Site.needs_context at h
    rw [hrep] at h
    exact absurd (Except.ok.inj h) (by decide)
  | some u =>
    have hbc : Site.build_context cfg (.error ()) = (Context.new_current, true) := by
      unfold Site.build_context
      rw [hrep]
    have hbc1 : (Site.build_context cfg (.error ())).1 = Context.new_current :=
      congrArg Prod.fst hbc
    unfold Site.build_single
    rw [h]
    refine ⟨_, rfl, ?_, ?_, ?_⟩
    · show (Site.build_context cfg (.error ())).2 = true
      rw [hbc]
    · show ((Site.build_additional_pages cfg.build.additional_pages
          ++ (Site.artifactsStep cfg (Site.build_context cfg (.error ())).1).2.2
          ++ (if cfg.components.changelog.isSome
              then Site.build_changelog_pages
                     (Site.artifactsStep cfg (Site.build_context cfg (.error ())).1).1 cfg
              else [])
          ++ (if cfg.components.funding.isSome then [fundingPage] else [])
          ++ [((Site.artifactsStep cfg (Site.build_context cfg (.error ())).1).2.1).getD
                (plainIndexPage cfg)]).getLast?.map fun pg => pg.filename)
            = some ["index.html"]
      rw [getLast?_append_singleton]
      rw [Option.map_some']
      rw [artifactsStep_index_filename]
    · intro pg hpg
      simp only [List.mem_append, List.mem_singleton] at hpg
      rcases hpg with (((hpg | hpg) | hpg) | hpg) | hpg
      · obtain ⟨p, _, hfn⟩ :=
          build_additional_pages_filenames cfg.build.additional_pages pg hpg
        rw [hfn]
        rfl
      · rw [artifactsStep_art_filenames cfg _ pg hpg]
        rfl
      · by_cases hcg : cfg.components.changelog.isSome = true
        · rw [if_pos hcg] at hpg
          have hsolo : ((Site.artifactsStep cfg
              (Site.build_context cfg (.error ())).1).1).isSoloCurrent = true := by
            rw [hbc1]
            obtain ⟨r', hrel, hsrc⟩ := artifactsStep_solo_current cfg
            exact isSoloCurrent_of _ r' hrel hsrc
          exact changelog_pages_len_one _ cfg hsolo pg hpg
        · rw [if_neg hcg] at hpg
          exact absurd hpg (List.not_mem_nil pg)
      · by_cases hfu : cfg.components.funding.isSome = true
        · rw [if_pos hfu, List.mem_singleton] at hpg
          rw [hpg]
          rfl
        · rw [if_neg hfu] at hpg
          exact absurd hpg (List.not_mem_nil pg)
      · rw [hpg, artifactsStep_index_filename]
        rfl

/-- Witness for the amended C2 at a concrete configuration with
artifacts and changelog enabled. -/
theorem fetch_failure_degradation_witness :
    ∃ r, Site.build_single cfgFetchFail (.error ()) (.ok true) = .ok r ∧
      r.warnedFetch = true ∧
      (r.pages.getLast?.map fun pg => pg.filename) = some ["index.html"] ∧
      (∀ pg ∈ r.pages, pg.filename.length = 1) :=
  fetch_failure_degradation cfgFetchFail (.ok true) (by rfl)

/-- A fetched context whose only release is unparseable. -/
def ctxUnparseable : Context :=
  { releases := [{ version_tag := "v2.0", source := .gitHub
                 , status := .unparseable "bad manifest"
                 , artifacts := { items := [], scripts_viewable := false } }] }

/-- A configuration with a repository and only the artifacts component
enabled. -/
def cfgArtifactsOnly : Config :=
  { project := { name := "proj", repository := some "https://github.com/o/r"
               , readme_path := "README.md" }
  , build := { dist_dir := ["public"], additional_pages := [] }
  , components := { artifacts_enabled := true, changelog := none
                  , funding := none, mdbook := none, source := none } }

/-- Counterexample to C6 as stated: with the artifacts component enabled
and a Context present whose only release is unparseable, no artifacts
page is produced. -/
theorem component_gating_counterexample :
    cfgArtifactsOnly.components.artifacts_enabled = true ∧
    ((Site.build_single cfgArtifactsOnly (.ok ctxUnparseable) (.ok true)).toOption.map
      fun r => r.finalContext.isSome) = some true ∧
    ((Site.build_single cfgArtifactsOnly (.ok ctxUnparseable) (.ok true)).toOption.map
      fun r => r.pages.any fun pg => pg.filename == ["artifacts.html"]) = some false := by
  refine ⟨rfl, rfl, rfl⟩

/-- When artifacts are enabled and the context has a latest release, the
artifacts step emits an `artifacts.html` page. -/
theorem artifactsStep_pages_mem (cfg : Config) (c : Context)
    (hen : cfg.components.artifacts_enabled = true) (i : Nat)
    (hi : c.latestIdx = some i) :
    ∃ pg ∈ (Site.artifactsStep cfg c).2.2, pg.filename = ["artifacts.html"] := by
  unfold Site.artifactsStep
  rw [hen, hi]
  exact ⟨_, List.mem_singleton.mpr rfl, rfl⟩

/-- The changelog index page is always among the changelog pages. -/
theorem changelogIndexPage_mem (c : Context) (cfg : Config) :
    changelogIndexPage c ∈ Site.build_changelog_pages c cfg := by
  rw [build_changelog_pages_eq]
  simp

/-- C6 (amended): in a successful build, an `artifacts.html` page is
present exactly when a Context is present, the artifacts component is
enabled, AND the Context has a latest (not unparseable) release; a
`changelog.html` page exactly when a Context is present and the changelog
component is enabled; a `funding.html` page exactly when a Context is
present and the funding component is configured (in particular, never
without a Context). Additional pages are assumed not to collide with
those three names. -/
theorem component_gating (cfg : Config) (fetch : Except Unit Context) (b : Bool)
    (hAdd : ∀ p ∈ cfg.build.additional_pages,
      mdHtmlName p ≠ "artifacts.html" ∧ mdHtmlName p ≠ "changelog.html" ∧
        mdHtmlName p ≠ "funding.html") :
    ∃ r, Site.build_single cfg fetch (.ok b) = .ok r ∧
      ((∃ pg ∈ r.pages, pg.filename = ["artifacts.html"]) ↔
        (r.finalContext.isSome = true ∧ cfg.components.artifacts_enabled = true ∧
          ((Site.build_context cfg fetch).1.latestIdx).isSome = true)) ∧
      ((∃ pg ∈ r.pages, pg.filename = ["changelog.html"]) ↔
        (r.finalContext.isSome = true ∧ cfg.components.changelog.isSome = true)) ∧
      ((∃ pg ∈ r.pages, pg.filename = ["funding.html"]) ↔
        (r.finalContext.isSome = true ∧ cfg.components.funding.isSome = true)) := by
  have hn := needs_context_eq cfg b
  unfold Site.build_single
  rw [hn]
  cases hN : (cfg.project.repository.isSome
      && (cfg.components.artifacts_enabled
          || cfg.components.changelog.isSome
          || cfg.components.funding.isSome || b)) with
  | false =>
    refine ⟨_, rfl, ?_, ?_, ?_⟩ <;>
      refine iff_of_false ?_ (fun hcontr => by simpa using hcontr.1)
    · rintro ⟨pg, hmem, hfn⟩
      simp only [List.mem_append, List.mem_singleton] at hmem
      rcases hmem with hmem | hmem
      · obtain ⟨p, hp, hname⟩ :=
          build_additional_pages_filenames cfg.build.additional_pages pg hmem
        rw [hname] at hfn
        exact (hAdd p hp).1 (List.cons.injEq .. ▸ hfn).1
      · rw [hmem] at hfn
        exact absurd (show (["index.html"] : List String) = ["artifacts.html"] from hfn)
          (by decide)
    · rintro ⟨pg, hmem, hfn⟩
      simp only [List.mem_append, List.mem_singleton] at hmem
      rcases hmem with hmem | hmem
      · obtain ⟨p, hp, hname⟩ :=
          build_additional_pages_filenames cfg.build.additional_pages pg hmem
        rw [hname] at hfn
        exact (hAdd p hp).2.1 (List.cons.injEq .. ▸ hfn).1
      · rw [hmem] at hfn
        exact absurd (show (["index.html"] : List String) = ["changelog.html"] from hfn)
          (by decide)
    · rintro ⟨pg, hmem, hfn⟩
      simp only [List.mem_append, List.mem_singleton] at hmem
      rcases hmem with hmem | hmem
      · obtain ⟨p, hp, hname⟩ :=
          build_additional_pages_filenames cfg.build.additional_pages pg hmem
        rw [hname] at hfn
        exact (hAdd p hp).2.2 (List.cons.injEq .. ▸ hfn).1
      · rw [hmem] at hfn
        exact absurd (show (["index.html"] : List String) = ["funding.html"] from hfn)
          (by decide)
  | true =>
    refine ⟨_, rfl, ?_, ?_, ?_⟩
    · constructor
      · rintro ⟨pg, hmem, hfn⟩
        simp only [List.mem_append, List.mem_singleton] at hmem
        rcases hmem with (((hmem | hmem) | hmem) | hmem) | hmem
        · obtain ⟨p, hp, hname⟩ :=
            build_additional_pages_filenames cfg.build.additional_pages pg hmem
          rw [hname] at hfn
          exact absurd ((List.cons.injEq ..  ▸ hfn).1) (hAdd p hp).1
        · have hne : (Site.artifactsStep cfg (Site.build_context cfg fetch).1).2.2 ≠ [] :=
            List.ne_nil_of_mem hmem
          have hcond := fun hd =>
            hne ((artifactsStep_pages_nil_iff cfg (Site.build_context cfg fetch).1).mpr hd)
          refine ⟨rfl, ?_, ?_⟩
          · cases hen : cfg.components.artifacts_enabled with
            | false => exact absurd (Or.inl hen) hcond
            | true => rfl
          · cases hlat : (Site.build_context cfg fetch).1.latestIdx with
            | none => exact absurd (Or.inr hlat) hcond
            | some i => rfl
        · by_cases hcg : cfg.components.changelog.isSome = true
          · rw [if_pos hcg] at hmem
            rcases build_changelog_pages_filenames _ cfg pg hmem with h1 | h1 | ⟨t, h1⟩ <;>
              rw [h1] at hfn
            · exact absurd hfn (by decide)
            · exact absurd hfn (by decide)
            · have := congrArg List.length hfn
              simp at this
          · rw [if_neg hcg] at hmem
            exact absurd hmem (List.not_mem_nil pg)
        · by_cases hfu : cfg.components.funding.isSome = true
          · rw [if_pos hfu, List.mem_singleton] at hmem
            rw [hmem] at hfn
            exact absurd hfn (by decide)
          · rw [if_neg hfu] at hmem
            exact absurd hmem (List.not_mem_nil pg)
        · rw [hmem, artifactsStep_index_filename] at hfn
          exact absurd hfn (by decide)
      · rintro ⟨-, hen, hlat⟩
        obtain ⟨i, hi⟩ := Option.isSome_iff_exists.mp hlat
        obtain ⟨pg, hpgmem, hpgfn⟩ :=
          artifactsStep_pages_mem cfg (Site.build_context cfg fetch).1 hen i hi
        refine ⟨pg, ?_, hpgfn⟩
        simp only [List.mem_append, List.mem_singleton]
        exact Or.inl (Or.inl (Or.inl (Or.inr hpgmem)))
    · constructor
      · rintro ⟨pg, hmem, hfn⟩
        simp only [List.mem_append, List.mem_singleton] at hmem
        rcases hmem with (((hmem | hmem) | hmem) | hmem) | hmem
        · obtain ⟨p, hp, hname⟩ :=
            build_additional_pages_filenames cfg.build.additional_pages pg hmem
          rw [hname] at hfn
          exact absurd ((List.cons.injEq ..  ▸ hfn).1) (hAdd p hp).2.1
        · rw [artifactsStep_art_filenames cfg _ pg hmem] at hfn
          exact absurd hfn (by decide)
        · by_cases hcg : cfg.components.changelog.isSome = true
          · exact ⟨rfl, hcg⟩
          · rw [if_neg hcg] at hmem
            exact absurd hmem (List.not_mem_nil pg)
        · by_cases hfu : cfg.components.funding.isSome = true
          · rw [if_pos hfu, List.mem_singleton] at hmem
            rw [hmem] at hfn
            exact absurd hfn (by decide)
          · rw [if_neg hfu] at hmem
            exact absurd hmem (List.not_mem_nil pg)
        · rw [hmem, artifactsStep_index_filename] at hfn
          exact absurd hfn (by decide)
      · rintro ⟨-, hcg⟩
        refine ⟨changelogIndexPage (Site.artifactsStep cfg (Site.build_context cfg fetch).1).1,
          ?_, rfl⟩
        simp only [List.mem_append, List.mem_singleton]
        refine Or.inl (Or.inl (Or.inr ?_))
        rw [if_pos hcg]
        exact changelogIndexPage_mem _ cfg
    · constructor
      · rintro ⟨pg, hmem, hfn⟩
        simp only [List.mem_append, List.mem_singleton] at hmem
        rcases hmem with (((hmem | hmem) | hmem) | hmem) | hmem
        · obtain ⟨p, hp, hname⟩ :=
            build_additional_pages_filenames cfg.build.additional_pages pg hmem
          rw [hname] at hfn
          exact absurd ((List.cons.injEq ..  ▸ hfn).1) (hAdd p hp).2.2
        · rw [artifactsStep_art_filenames cfg _ pg hmem] at hfn
          exact absurd hfn (by decide)
        · by_cases hcg : cfg.components.changelog.isSome = true
          · rw [if_pos hcg] at hmem
            rcases build_changelog_pages_filenames _ cfg pg hmem with h1 | h1 | ⟨t, h1⟩ <;>
              rw [h1] at hfn
            · exact absurd hfn (by decide)
            · exact absurd hfn (by decide)
            · have := congrArg List.length hfn
              simp at this
          · rw [if_neg hcg] at hmem
            exact absurd hmem (List.not_mem_nil pg)
        · by_cases hfu : cfg.components.funding.isSome = true
          · exact ⟨rfl, hfu⟩
          · rw [if_neg hfu] at hmem
            exact absurd hmem (List.not_mem_nil pg)
        · rw [hmem, artifactsStep_index_filename] at hfn
          exact absurd hfn (by decide)
      · rintro ⟨-, hfu⟩
        refine ⟨fundingPage, ?_, rfl⟩
        simp only [List.mem_append, List.mem_singleton]
        refine Or.inl (Or.inr ?_)
        rw [if_pos hfu]
        exact List.mem_singleton.mpr rfl

/-- Witness for the amended C6 at a concrete artifacts-only configuration
over a concrete parseable context. -/
theorem component_gating_witness :
    ∃ r, Site.build_single cfgArtifactsOnly (.ok ctxTwo) (.ok true) = .ok r ∧
      ((∃ pg ∈ r.pages, pg.filename = ["artifacts.html"]) ↔
        (r.finalContext.isSome = true ∧
          cfgArtifactsOnly.components.artifacts_enabled = true ∧
          ((Site.build_context cfgArtifactsOnly (.ok ctxTwo)).1.latestIdx).isSome = true)) ∧
      ((∃ pg ∈ r.pages, pg.filename = ["changelog.html"]) ↔
        (r.finalContext.isSome = true ∧
          cfgArtifactsOnly.components.changelog.isSome = true)) ∧
      ((∃ pg ∈ r.pages, pg.filename = ["funding.html"]) ↔
        (r.finalContext.isSome = true ∧
          cfgArtifactsOnly.components.funding.isSome = true)) :=
  component_gating cfgArtifactsOnly (.ok ctxTwo) true
    (fun p hp => absurd hp (List.not_mem_nil p))

end Oranda
